import Mathlib

/-!
Verification of the OPO GenAI Chat Tool frontend (React/TypeScript) against its
natural-language specification.

The development shallowly embeds the program's core logic in Lean:

* the citation-linking render pipeline of `ChatMessage.tsx`
  (`processCitations`, the `<CITATION_n>` / `[CITATIONn]` placeholder passes,
  and the `data-citation` click handler);
* the chat transcript state machine of `ChatInterface.tsx`
  (`loadChatHistory`, `handleSend` with its optimistic append and error path);
* the session-registry handlers of `App.tsx` (mutation intent followed by a
  full reload) and of the legacy mock `App` iteration (`src/unnamed/part_003`)
  whose buckets are derived client-side;
* the backend span highlighter, which is not part of the frontend sources and
  is therefore modelled from the specification.

JavaScript strings are embedded as `List Char`; `String.prototype.replace`
with a global literal pattern is embedded as leftmost non-overlapping
replacement (`replaceAll`); template-literal interpolation of a number is
embedded as its decimal numeral (`toDecimal`).  All functions are total:
the embedded operations (string slicing, regex replacement, array indexing)
cannot throw in JavaScript, and out-of-range array reads yield `undefined`,
embedded as `Option.none`.
-/

namespace OPOChat

/-- Decimal digit character for `m ∈ [0,9]` (callers always pass `n % 10`). -/
def digitChar (m : Nat) : Char :=
  match m with
  | 0 => '0' | 1 => '1' | 2 => '2' | 3 => '3' | 4 => '4'
  | 5 => '5' | 6 => '6' | 7 => '7' | 8 => '8' | _ => '9'

/-- Fuel-driven accumulator loop producing the decimal digits of `n`;
`fuel ≥ n` always suffices since `n` shrinks by a factor of ten each step. -/
def toDecimalAux : Nat → Nat → List Char → List Char
  | 0, _, acc => acc
  | fuel + 1, n, acc =>
    if n = 0 then acc else toDecimalAux fuel (n / 10) (digitChar (n % 10) :: acc)

/-- The decimal numeral of `n`, as produced by JavaScript number-to-string
conversion inside template literals such as `` `[${citationNum}]` ``. -/
def toDecimal (n : Nat) : List Char :=
  if n = 0 then ['0'] else toDecimalAux n n []

/-- Numeric value of a list of decimal digit characters. -/
def digitsVal (l : List Char) : Nat :=
  l.foldl (fun a c => 10 * a + (c.toNat - 48)) 0

/-- Embedding of JavaScript `String.prototype.replace` with a global literal
pattern (`str.replace(/lit/g, repl)`): leftmost, non-overlapping replacement.
The first argument counts characters of a just-matched occurrence that remain
to be skipped, so the recursion is structural on the subject string. -/
def replaceAllAux (p r : List Char) : Nat → List Char → List Char
  | _, [] => []
  | k + 1, _ :: cs => replaceAllAux p r k cs
  | 0, c :: cs =>
    if p ≠ [] ∧ p.isPrefixOf (c :: cs) then
      r ++ replaceAllAux p r (p.length - 1) cs
    else
      c :: replaceAllAux p r 0 cs

def replaceAll (p r s : List Char) : List Char := replaceAllAux p r 0 s

/-- Number of leftmost non-overlapping occurrences of `p`, with the same
scanning discipline as `replaceAll`; "a marker is left as literal text" is
expressed as preservation of this count. -/
def countOccAux (p : List Char) : Nat → List Char → Nat
  | _, [] => 0
  | k + 1, _ :: cs => countOccAux p k cs
  | 0, c :: cs =>
    if p ≠ [] ∧ p.isPrefixOf (c :: cs) then
      1 + countOccAux p (p.length - 1) cs
    else
      countOccAux p 0 cs

def countOcc (p s : List Char) : Nat := countOccAux p 0 s

/-- The bracketed decimal marker `[n]`, as built by the template literal
in `processCitations` (`ChatMessage.tsx`). -/
def markerTok (n : Nat) : List Char := '[' :: (toDecimal n ++ [']'])

/-- The inert placeholder `<CITATION_n>` substituted for a matched marker
(`ChatMessage.tsx`, `processCitations`). -/
def citationToken (n : Nat) : List Char := "<CITATION_".data ++ toDecimal n ++ ['>']

/-- Citation entry as the frontend builds it from the backend's citation map
(`ChatInterface.tsx`, `Object.entries(response.citations)`): `id` holds the
map key (the citation's display number, as a string), `text` and `source`
hold the filename, `url` the source URL. -/
structure Citation where
  id : String
  text : String
  source : String
  url : String
deriving DecidableEq, Repr

/-- Modelled from the spec: the `displayIndex` field of the spec's data model
has no dedicated field in the code; its value is the numeric reading of the
backend citation key stored in `id`. -/
def displayIndexOf (c : Citation) : Option Nat :=
  if c.id.data ≠ [] ∧ c.id.data.all Char.isDigit then some (digitsVal c.id.data) else none

/-- Pass 1 of the renderer (`processCitations`, `ChatMessage.tsx` lines
44-59): for each citation position `i` (0-based) the literal marker `[i+1]`
is globally replaced by the placeholder `<CITATION_(i+1)>`.  Matching is by
array position (`index + 1`), not by the citation's key. -/
def processCitationsL (content : List Char) (cs : List Citation) : List Char :=
  (List.range cs.length).foldl
    (fun acc i => replaceAll (markerTok (i + 1)) (citationToken (i + 1)) acc) content

/-- `processCitations` including its guard
(`if (!citations || citations.length === 0) return content`). -/
def processCitations (content : String) (citations : Option (List Citation)) : String :=
  match citations with
  | none => content
  | some cs =>
    if cs.length = 0 then content else String.mk (processCitationsL content.data cs)

/-- Pass 2 (`renderContent`, `ChatMessage.tsx` lines 87-89): the regex
`/<CITATION_(\d+)>/g` rewritten to `[CITATIONn]`.  A match is the literal
prefix `<CITATION_`, one or more digits, then `>`; since `>` is not a digit,
greedy digit scanning coincides with the regex semantics. -/
def matchCitationTok (s : List Char) : Option (List Char × List Char) :=
  if "<CITATION_".data.isPrefixOf s then
    let num := (s.drop 10).takeWhile Char.isDigit
    match (s.drop 10).dropWhile Char.isDigit with
    | '>' :: r2 => if num = [] then none else some (num, r2)
    | _ => none
  else none

/-- Fuel-driven scan for pass 2; fuel `s.length` always suffices because each
step consumes at least one character. -/
def citTokPass : Nat → List Char → List Char
  | 0, s => s
  | _ + 1, [] => []
  | fuel + 1, c :: cs =>
    match matchCitationTok (c :: cs) with
    | some (num, r2) => "[CITATION".data ++ num ++ [']'] ++ citTokPass fuel r2
    | none => c :: citTokPass fuel cs

def replaceCitationTokens (s : List Char) : List Char := citTokPass s.length s

/-- A fragment of the rendered message: ordinary text, or the clickable
citation button `<button class="citation-button" data-citation="num">`
produced by `renderContentWithCitations` (`ChatMessage.tsx` lines 98-110). -/
inductive RenderPart where
  | text : Char → RenderPart
  | anchor : List Char → RenderPart
deriving DecidableEq, Repr

/-- Pass 3 match: the regex `/\[CITATION(\d+)\]/g`. -/
def matchCitationMark (s : List Char) : Option (List Char × List Char) :=
  if "[CITATION".data.isPrefixOf s then
    let num := (s.drop 9).takeWhile Char.isDigit
    match (s.drop 9).dropWhile Char.isDigit with
    | ']' :: r2 => if num = [] then none else some (num, r2)
    | _ => none
  else none

def buttonPass : Nat → List Char → List RenderPart
  | 0, s => s.map RenderPart.text
  | _ + 1, [] => []
  | fuel + 1, c :: cs =>
    match matchCitationMark (c :: cs) with
    | some (num, r2) => RenderPart.anchor num :: buttonPass fuel r2
    | none => RenderPart.text c :: buttonPass fuel cs

def renderWithButtons (s : List Char) : List RenderPart := buttonPass s.length s

/-- The full render pipeline of an AI message (`renderContentWithCitations`):
pass 1 on the raw content, pass 2, then pass 3 producing the interactive
parts.  The markdown conversion between passes 1 and 2 is an external
collaborator and acts on the placeholder-bearing text. -/
def renderPipelineParts (content : String) (citations : Option (List Citation)) :
    List RenderPart :=
  renderWithButtons (replaceCitationTokens (processCitations content citations).data)

def anchorsOf (ps : List RenderPart) : List (List Char) :=
  ps.filterMap fun p =>
    match p with
    | RenderPart.anchor num => some num
    | RenderPart.text _ => none

/-- JavaScript `parseInt` restricted to the digit-string attributes produced
by the renderer: the numeric value of the leading digit block, `none`
standing for `NaN`. -/
def parseDecimalPrefix (s : String) : Option Nat :=
  if s.data.takeWhile Char.isDigit = [] then none
  else some (digitsVal (s.data.takeWhile Char.isDigit))

/-- The click handler wired on the rendered message (`ChatMessage.tsx` lines
111-119): read `data-citation` (defaulting to `"0"`), parse it, and call
`onViewSource(citations[n-1])` only if that entry exists.  The returned value
is the citation passed to `onViewSource` (`none`: no action). -/
def handleCitationClick (citations : Option (List Citation)) (attr : Option String) :
    Option Citation :=
  match parseDecimalPrefix (attr.getD "0") with
  | none => none
  | some citationNum =>
    match citations with
    | none => none
    | some cs => if 1 ≤ citationNum then cs[citationNum - 1]? else none

/-- Message role (`type: 'user' | 'ai'`). -/
inductive Role where
  | user : Role
  | ai : Role
deriving DecidableEq, Repr

/-- UI message (`Message` in `@/types`, as used by `ChatInterface.tsx`);
`highlighted_passages` is not inspected by any claim and is omitted. -/
structure UMessage where
  id : String
  type : Role
  content : String
  citations : Option (List Citation)
  timestamp : Nat
deriving DecidableEq, Repr

/-- Backend citation record (`Citation` in `lib/api.ts`). -/
structure WireCitation where
  filename : String
  source_url : String
deriving DecidableEq, Repr

/-- A history entry from `getChatHistory` (the fields `loadChatHistory`
reads); the citations map is embedded as its `Object.entries` list. -/
structure WireMessage where
  type : String
  content : String
  citations : Option (List (String × WireCitation))
deriving DecidableEq, Repr

/-- A `generate` response (the fields `handleSend` reads;
`highlighted_passages` omitted as above). -/
structure GenerateWire where
  answer : String
  citations : Option (List (String × WireCitation))
deriving DecidableEq, Repr

/-- Component state of `ChatInterface` (the fields the claims concern). -/
structure ChatState where
  selected : Option String
  messages : List UMessage
  thinking : Bool
  loading : Bool
deriving DecidableEq, Repr

/-- JavaScript number-to-string conversion (`Date.now().toString()`). -/
def decimalStr (n : Nat) : String := String.mk (toDecimal n)

/-- `Object.entries(x.citations).forEach(...)` conversion shared by
`loadChatHistory` and `handleSend` (`ChatInterface.tsx`). -/
def convertCitations (entries : Option (List (String × WireCitation))) : List Citation :=
  match entries with
  | none => []
  | some l => l.map fun e =>
      { id := e.1, text := e.2.filename, source := e.2.filename, url := e.2.source_url }

/-- One history entry converted to a UI message (`loadChatHistory` lines
61-83); `new Date()` is modelled as timestamp `0`. -/
def convertMessage (sid : String) (idx : Nat) (m : WireMessage) : UMessage :=
  let cits := convertCitations m.citations
  { id := sid ++ "-" ++ decimalStr idx
  , type := if m.type = "user" then Role.user else Role.ai
  , content := m.content
  , citations := if cits.length > 0 then some cits else none
  , timestamp := 0 }

/-- Selecting a chat (`setSelectedChat` in `App.tsx` flowing into the
`selectedChat` prop; the `useEffect` on it then starts a history load). -/
def selectChat (st : ChatState) (sid : Option String) : ChatState :=
  { st with selected := sid }

/-- Start of `loadChatHistory`: guard `if (!selectedChat) return`, then
`setLoading(true)`. -/
def loadHistoryStart (st : ChatState) : ChatState :=
  match st.selected with
  | none => st
  | some _ => { st with loading := true }

/-- Completion of `loadChatHistory` for session `sid`: on success the
transcript is replaced wholesale with the converted history; on failure the
error is caught (logged) and the transcript left untouched; `finally`
clears `loading`. -/
def loadHistoryArrived (st : ChatState) (sid : String)
    (r : Except String (List WireMessage)) : ChatState :=
  match r with
  | Except.ok hist =>
    { st with
        messages := hist.enum.map fun e => convertMessage sid e.1 e.2
      , loading := false }
  | Except.error _ => { st with loading := false }

/-- JavaScript `String.prototype.trim` (the `query.trim()` guard),
embedded on the character list: whitespace stripped from both ends. -/
def jsTrim (s : String) : String :=
  String.mk (((s.data.dropWhile Char.isWhitespace).reverse.dropWhile
    Char.isWhitespace).reverse)

/-- The synchronous prefix of `handleSend` (`ChatInterface.tsx` lines
99-111): guard `!query.trim() || !selectedChat`; append the optimistic user
message; set `thinking`.  Returns the updated state and the issued request
`(sessionId, query)`, `none` when the guard fired.  `Date.now()` is the
`now` argument. -/
def handleSendStart (st : ChatState) (query : String) (now : Nat) :
    ChatState × Option (String × String) :=
  match st.selected with
  | none => (st, none)
  | some sid =>
    if jsTrim query = "" then (st, none)
    else
      ({ st with
          messages := st.messages ++
            [{ id := decimalStr now, type := Role.user, content := query
             , citations := none, timestamp := now }]
        , thinking := true }, some (sid, query))

/-- Arrival of a successful `generate` response (lines 113-139): the AI
message is appended to whatever transcript is current — the handler does not
compare the request's session with the current selection. -/
def generateOk (st : ChatState) (resp : GenerateWire) (now : Nat) : ChatState :=
  let cits := convertCitations resp.citations
  { st with
      messages := st.messages ++
        [{ id := decimalStr (now + 1), type := Role.ai, content := resp.answer
         , citations := if cits.length > 0 then some cits else none, timestamp := now }]
    , thinking := false }

/-- The fixed apology string of the error path. -/
def apologyText : String :=
  "Sorry, I encountered an error while generating a response. Please try again."

/-- Arrival of a failed `generate` call (lines 140-152): the optimistic user
message is left in place and exactly one synthesized AI message with the
fixed apology text is appended; `finally` clears `thinking`. -/
def generateErr (st : ChatState) (now : Nat) : ChatState :=
  { st with
      messages := st.messages ++
        [{ id := decimalStr (now + 1), type := Role.ai, content := apologyText
         , citations := none, timestamp := now }]
    , thinking := false }

/-- Chat summary as served by the backend (`Chat` in `lib/api.ts`; the
`summary` and timestamp strings are not inspected by any claim). -/
structure ChatW where
  session_id : String
  name : String
  project_id : Option String
  is_favorite : Bool
deriving DecidableEq, Repr

structure ProjectW where
  id : String
  name : String
deriving DecidableEq, Repr

/-- The backend-organized bucket view (`OrganizedChats` in `lib/api.ts`);
the `projects` record is embedded as an association list. -/
structure OrganizedChats where
  favorites : List ChatW
  projects : List (String × ProjectW × List ChatW)
  no_project : List ChatW
deriving DecidableEq, Repr

/-- `App` component state (`App.tsx`). -/
structure AppState where
  selectedChat : Option String
  organizedChats : OrganizedChats
  loading : Bool
deriving DecidableEq, Repr

/-- `loadChats` (`App.tsx` lines 19-29): replace the organized view wholesale
with the fetched result; a fetch error is caught and leaves the view
untouched; `finally` clears `loading`. -/
def loadChats (st : AppState) (r : Except String OrganizedChats) : AppState :=
  match r with
  | Except.ok chats => { st with organizedChats := chats, loading := false }
  | Except.error _ => { st with loading := false }

/-- The organized view produced by a completed reload. -/
def reloadedOrganized (st : AppState) (r : Except String OrganizedChats) : OrganizedChats :=
  (loadChats st r).organizedChats

/-- `handleToggleFavorite` (`App.tsx` lines 53-60): backend call, then full
reload; a rejection is caught and skips the reload.  The second argument is
the backend round-trip outcome, the third the reload fetch outcome. -/
def handleToggleFavoriteApp (st : AppState) (chatId : String)
    (r : Except String Bool) (listR : Except String OrganizedChats) : AppState :=
  match r with
  | Except.ok _ => loadChats st listR
  | Except.error _ => st

/-- `handleRenameChat` (lines 73-80). -/
def handleRenameChatApp (st : AppState) (chatId newName : String)
    (r : Except String Unit) (listR : Except String OrganizedChats) : AppState :=
  match r with
  | Except.ok _ => loadChats st listR
  | Except.error _ => st

/-- `handleMoveToProject` (lines 82-89). -/
def handleMoveToProjectApp (st : AppState) (chatId : String) (projectId : Option String)
    (r : Except String Unit) (listR : Except String OrganizedChats) : AppState :=
  match r with
  | Except.ok _ => loadChats st listR
  | Except.error _ => st

/-- `handleDeleteChat` (`App.tsx` lines 91-101): on successful deletion clear
the selection if the deleted chat was the selected one, then reload; a
rejection is caught before the selection update. -/
def handleDeleteChatApp (st : AppState) (chatId : String)
    (r : Except String Unit) (listR : Except String OrganizedChats) : AppState :=
  match r with
  | Except.ok _ =>
    loadChats
      (if st.selectedChat = some chatId then { st with selectedChat := none } else st)
      listR
  | Except.error _ => st

/-- `handleNewChat` (lines 43-51): on success select the new session, then
reload. -/
def handleNewChatApp (st : AppState) (projectId : Option String)
    (r : Except String String) (listR : Except String OrganizedChats) : AppState :=
  match r with
  | Except.ok sid => loadChats { st with selectedChat := some sid } listR
  | Except.error _ => st

/-- `handleNewProject` (lines 31-41): `prompt` result (`none`: cancelled),
then create and reload. -/
def handleNewProjectApp (st : AppState) (name : Option String)
    (r : Except String Unit) (listR : Except String OrganizedChats) : AppState :=
  match name with
  | none => st
  | some _ =>
    match r with
    | Except.ok _ => loadChats st listR
    | Except.error _ => st

/-- `handleDeleteProject` (lines 62-71), guarded by `confirm(...)`. -/
def handleDeleteProjectApp (st : AppState) (confirmed : Bool)
    (r : Except String Unit) (listR : Except String OrganizedChats) : AppState :=
  if confirmed then
    match r with
    | Except.ok _ => loadChats st listR
    | Except.error _ => st
  else st

/-- Chat of the legacy mock `App` iteration (`src/unnamed/part_003`). -/
structure MChat where
  id : String
  name : String
  isFavourite : Bool
deriving DecidableEq, Repr

structure MProject where
  id : String
  name : String
  chats : List MChat
deriving DecidableEq, Repr

/-- `favouriteChats` (`part_003` lines 30-33). -/
def favouritesM (projects : List MProject) (allChats : List MChat) : List MChat :=
  (projects.flatMap fun p => p.chats.filter fun c => c.isFavourite)
    ++ allChats.filter fun c => c.isFavourite

/-- The unfiled bucket passed to the sidebar (`part_003` line 84:
`allChats.filter(c => !c.isFavourite)`). -/
def unfiledM (allChats : List MChat) : List MChat :=
  allChats.filter fun c => !c.isFavourite

/-- `toggleFavourite` (`part_003` lines 64-77): a purely local flag flip in
both the project lists and the flat list; no backend call is involved. -/
def toggleFavouriteM (projects : List MProject) (allChats : List MChat)
    (chatId : String) : List MProject × List MChat :=
  ( projects.map fun p =>
      { p with
          chats := p.chats.map fun c =>
            if c.id = chatId then { c with isFavourite := !c.isFavourite } else c }
  , allChats.map fun c =>
      if c.id = chatId then { c with isFavourite := !c.isFavourite } else c )

/-- Initial mock data of `part_003` (lines 7-28). -/
def mProjects0 : List MProject :=
  [ { id := "project-1", name := "Research Project"
    , chats := [ { id := "chat-1", name := "AI Ethics Discussion", isFavourite := false }
               , { id := "chat-2", name := "Machine Learning Basics", isFavourite := true } ] }
  , { id := "project-2", name := "Product Development"
    , chats := [ { id := "chat-3", name := "User Experience Design", isFavourite := false } ] } ]

def mAllChats0 : List MChat :=
  [ { id := "chat-4", name := "General Questions", isFavourite := false }
  , { id := "chat-5", name := "Technical Support", isFavourite := true } ]

/-- Modelled from the spec: a character-offset span of the backend span
highlighter (`view_document`, absent from `src/`); the `end` offset is named
`stop` because `end` is reserved in Lean. -/
structure Span where
  start : Nat
  stop : Nat
deriving DecidableEq, Repr

/-- Modelled from the spec: one insertion step of the span highlighter —
slice `before = text[0:start]`, `match = text[start:end]`,
`after = text[end:]` and reassemble with highlight markup around the match. -/
def applySpan (text : List Char) (s : Span) : List Char :=
  text.take s.start ++ "<mark>".data ++ (text.drop s.start).take (s.stop - s.start)
    ++ "</mark>".data ++ text.drop s.stop

/-- Modelled from the spec: the backend span highlighter (`view_document`),
absent from `src/` — sort the spans by descending `start` offset (stable;
the spec fixes no tie-break for equal offsets) and apply the insertions in
that order, each against the already-processed text. -/
def highlight (documentText : String) (spans : List Span) : String :=
  String.mk
    ((spans.insertionSort fun a b => b.start ≤ a.start).foldl applySpan documentText.data)

theorem digitChar_isDigit (m : Nat) : (digitChar m).isDigit = true := by
  rcases m with _ | _ | _ | _ | _ | _ | _ | _ | _ | m <;> rfl

theorem digitChar_toNat (m : Nat) (h : m < 10) : (digitChar m).toNat - 48 = m := by
  interval_cases m <;> rfl

theorem toDecimalAux_acc (fuel : Nat) :
    ∀ (n : Nat) (acc : List Char),
      toDecimalAux fuel n acc = toDecimalAux fuel n [] ++ acc := by
  induction fuel with
  | zero => intro n acc; rfl
  | succ fuel ih =>
    intro n acc
    by_cases h : n = 0
    · simp [toDecimalAux, h]
    · simp only [toDecimalAux, h, if_false, ite_false]
      rw [ih (n / 10) (digitChar (n % 10) :: acc), ih (n / 10) [digitChar (n % 10)]]
      simp

theorem digitsVal_append_singleton (l : List Char) (c : Char) :
    digitsVal (l ++ [c]) = 10 * digitsVal l + (c.toNat - 48) := by
  simp [digitsVal, List.foldl_append]

theorem digitsVal_toDecimalAux (fuel : Nat) :
    ∀ n : Nat, n ≤ fuel → digitsVal (toDecimalAux fuel n []) = n := by
  induction fuel with
  | zero =>
    intro n hn
    interval_cases n
    rfl
  | succ fuel ih =>
    intro n hn
    by_cases h : n = 0
    · simp [toDecimalAux, h, digitsVal]
    · have hdiv : n / 10 ≤ fuel := by
        have : n / 10 < n := Nat.div_lt_self (Nat.pos_of_ne_zero h) (by omega)
        omega
      simp only [toDecimalAux, h, ite_false]
      rw [toDecimalAux_acc, digitsVal_append_singleton, ih (n / 10) hdiv,
        digitChar_toNat (n % 10) (Nat.mod_lt n (by omega))]
      omega

theorem digitsVal_toDecimal (n : Nat) : digitsVal (toDecimal n) = n := by
  by_cases h : n = 0
  · simp [toDecimal, h, digitsVal]
  · simp only [toDecimal, h, ite_false]
    exact digitsVal_toDecimalAux n n le_rfl

theorem toDecimal_injective {a b : Nat} (h : toDecimal a = toDecimal b) : a = b := by
  have := congrArg digitsVal h
  rwa [digitsVal_toDecimal, digitsVal_toDecimal] at this

theorem toDecimalAux_digits (fuel : Nat) :
    ∀ (n : Nat) (acc : List Char), (∀ c ∈ acc, c.isDigit = true) →
      ∀ c ∈ toDecimalAux fuel n acc, c.isDigit = true := by
  induction fuel with
  | zero => intro n acc hacc; exact hacc
  | succ fuel ih =>
    intro n acc hacc c hc
    by_cases h : n = 0
    · simp only [toDecimalAux, h, ite_true] at hc
      exact hacc c hc
    · simp only [toDecimalAux, h, ite_false] at hc
      refine ih (n / 10) (digitChar (n % 10) :: acc) ?_ c hc
      intro d hd
      rcases List.mem_cons.mp hd with hd | hd
      · subst hd; exact digitChar_isDigit _
      · exact hacc d hd

theorem toDecimal_digits (n : Nat) : ∀ c ∈ toDecimal n, c.isDigit = true := by
  by_cases h : n = 0
  · intro c hc
    simp only [toDecimal, h, ite_true, List.mem_singleton] at hc
    subst hc; rfl
  · simp only [toDecimal, h, ite_false]
    exact toDecimalAux_digits n n [] (by intro c hc; cases hc)

theorem toDecimal_ne_nil (n : Nat) : toDecimal n ≠ [] := by
  by_cases h : n = 0
  · simp [toDecimal, h]
  · obtain ⟨fuel, hfuel⟩ : ∃ fuel, n = fuel + 1 := ⟨n - 1, by omega⟩
    subst hfuel
    simp only [toDecimal, h, ite_false, toDecimalAux, ite_false]
    rw [toDecimalAux_acc]
    simp

theorem isDigit_toNat_bounds {c : Char} (h : c.isDigit = true) :
    48 ≤ c.toNat ∧ c.toNat ≤ 57 := by
  simp only [Char.isDigit, Bool.and_eq_true, decide_eq_true_eq] at h
  obtain ⟨h1, h2⟩ := h
  exact ⟨h1, h2⟩

theorem digit_ne_bracketL {c : Char} (h : c.isDigit = true) : c ≠ '[' := by
  intro hc; subst hc; exact absurd h (by decide)

theorem digit_ne_bracketR {c : Char} (h : c.isDigit = true) : c ≠ ']' := by
  intro hc; subst hc; exact absurd h (by decide)

theorem digit_ne_lt {c : Char} (h : c.isDigit = true) : c ≠ '<' := by
  intro hc; subst hc; exact absurd h (by decide)

theorem replaceAllAux_skip (p r : List Char) :
    ∀ (s : List Char) (k : Nat), replaceAllAux p r k s = replaceAll p r (s.drop k) := by
  intro s
  induction s with
  | nil => intro k; cases k <;> rfl
  | cons c cs ih =>
    intro k
    cases k with
    | zero => rfl
    | succ k => simpa [replaceAllAux] using ih k

theorem countOccAux_skip (p : List Char) :
    ∀ (s : List Char) (k : Nat), countOccAux p k s = countOcc p (s.drop k) := by
  intro s
  induction s with
  | nil => intro k; cases k <;> rfl
  | cons c cs ih =>
    intro k
    cases k with
    | zero => rfl
    | succ k => simpa [countOccAux] using ih k

theorem replaceAll_nil (p r : List Char) : replaceAll p r [] = [] := rfl

theorem replaceAll_pos {p : List Char} (r : List Char) {c : Char} {cs : List Char}
    (hne : p ≠ []) (hpre : p.isPrefixOf (c :: cs)) :
    replaceAll p r (c :: cs) = r ++ replaceAll p r ((c :: cs).drop p.length) := by
  obtain ⟨m, hm⟩ : ∃ m, p.length = m + 1 :=
    ⟨p.length - 1, by cases p with | nil => exact absurd rfl hne | cons a as => simp⟩
  simp only [replaceAll, replaceAllAux, hne, hpre, and_true, ne_eq,
    not_false_eq_true, if_true, true_and, ite_true]
  rw [replaceAllAux_skip, hm]
  simp [replaceAll]

theorem replaceAll_neg {p : List Char} (r : List Char) {c : Char} {cs : List Char}
    (h : ¬(p ≠ [] ∧ p.isPrefixOf (c :: cs))) :
    replaceAll p r (c :: cs) = c :: replaceAll p r cs := by
  simp only [replaceAll, replaceAllAux, h, ite_false]

theorem countOcc_nil (p : List Char) : countOcc p [] = 0 := rfl

theorem countOcc_pos {p : List Char} {c : Char} {cs : List Char}
    (hne : p ≠ []) (hpre : p.isPrefixOf (c :: cs)) :
    countOcc p (c :: cs) = 1 + countOcc p ((c :: cs).drop p.length) := by
  obtain ⟨m, hm⟩ : ∃ m, p.length = m + 1 :=
    ⟨p.length - 1, by cases p with | nil => exact absurd rfl hne | cons a as => simp⟩
  simp only [countOcc, countOccAux, hne, hpre, and_true, ne_eq,
    not_false_eq_true, if_true, true_and, ite_true]
  rw [countOccAux_skip, hm]
  simp [countOcc]

theorem countOcc_neg {p : List Char} {c : Char} {cs : List Char}
    (h : ¬(p ≠ [] ∧ p.isPrefixOf (c :: cs))) :
    countOcc p (c :: cs) = countOcc p cs := by
  simp only [countOcc, countOccAux, h, ite_false]

theorem isPrefixOf_cons_cons (a b : Char) (as bs : List Char) :
    (a :: as).isPrefixOf (b :: bs) = (a == b && as.isPrefixOf bs) := rfl

theorem isPrefixOf_append_self : ∀ l x : List Char, l.isPrefixOf (l ++ x) = true := by
  intro l x
  induction l with
  | nil => simp [List.isPrefixOf]
  | cons a l ih => simp [List.cons_append, isPrefixOf_cons_cons, ih]

/-- Scanning a block that contains no opening bracket cannot consume an
occurrence of a bracket-headed pattern. -/
theorem countOcc_append_free (tt : List Char) :
    ∀ l Y : List Char, (∀ c ∈ l, c ≠ '[') →
      countOcc ('[' :: tt) (l ++ Y) = countOcc ('[' :: tt) Y := by
  intro l
  induction l with
  | nil => intro Y _; rfl
  | cons a l ih =>
    intro Y hl
    have hnp : ¬(('[' :: tt) ≠ [] ∧ ('[' :: tt).isPrefixOf (a :: (l ++ Y))) := by
      rintro ⟨-, hpre⟩
      rw [isPrefixOf_cons_cons, Bool.and_eq_true] at hpre
      exact hl a (List.mem_cons_self a l) (eq_of_beq hpre.1).symm
    rw [List.cons_append, countOcc_neg hnp]
    exact ih Y fun c hc => hl c (List.mem_cons_of_mem a hc)

/-- Replacement of a bracket-headed pattern passes over a block that
contains no opening bracket. -/
theorem replaceAll_append_free (pp r : List Char) :
    ∀ l Y : List Char, (∀ c ∈ l, c ≠ '[') →
      replaceAll ('[' :: pp) r (l ++ Y) = l ++ replaceAll ('[' :: pp) r Y := by
  intro l
  induction l with
  | nil => intro Y _; rfl
  | cons a l ih =>
    intro Y hl
    have hnp : ¬(('[' :: pp) ≠ [] ∧ ('[' :: pp).isPrefixOf (a :: (l ++ Y))) := by
      rintro ⟨-, hpre⟩
      rw [isPrefixOf_cons_cons, Bool.and_eq_true] at hpre
      exact hl a (List.mem_cons_self a l) (eq_of_beq hpre.1).symm
    rw [List.cons_append, replaceAll_neg r hnp,
      ih Y fun c hc => hl c (List.mem_cons_of_mem a hc)]
    rfl

/-- If a string with no `<` character is a prefix of the replaced output and
the replacement text starts with `<`, it was already a prefix of the input. -/
theorem prefix_reflect (p rr : List Char) :
    ∀ Z w : List Char, w ≠ [] → (∀ c ∈ w, c ≠ '<') →
      w.isPrefixOf (replaceAll p ('<' :: rr) Z) = true → w.isPrefixOf Z = true := by
  intro Z
  induction Z with
  | nil =>
    intro w hw _ hpre
    rw [replaceAll_nil] at hpre
    cases w with
    | nil => exact absurd rfl hw
    | cons w0 w' => simp [List.isPrefixOf] at hpre
  | cons c cs ih =>
    intro w hw hlt hpre
    by_cases hmatch : p ≠ [] ∧ p.isPrefixOf (c :: cs)
    · rw [replaceAll_pos ('<' :: rr) hmatch.1 hmatch.2, List.cons_append] at hpre
      cases w with
      | nil => exact absurd rfl hw
      | cons w0 w' =>
        rw [isPrefixOf_cons_cons, Bool.and_eq_true] at hpre
        exact absurd (eq_of_beq hpre.1) (hlt w0 (List.mem_cons_self w0 w'))
    · rw [replaceAll_neg _ hmatch] at hpre
      cases w with
      | nil => exact absurd rfl hw
      | cons w0 w' =>
        rw [isPrefixOf_cons_cons, Bool.and_eq_true] at hpre
        obtain ⟨h0, h1⟩ := hpre
        rw [isPrefixOf_cons_cons, Bool.and_eq_true]
        refine ⟨h0, ?_⟩
        cases w' with
        | nil => simp [List.isPrefixOf]
        | cons v vs =>
          exact ih (v :: vs) (by simp)
            (fun d hd => hlt d (List.mem_cons_of_mem w0 hd)) h1

theorem citationToken_cons (n : Nat) :
    citationToken n = '<' :: ("CITATION_".data ++ toDecimal n ++ ['>']) := rfl

theorem citationToken_free (k : Nat) : ∀ c ∈ citationToken k, c ≠ '[' := by
  intro c hc
  simp only [citationToken, List.append_assoc, List.mem_append] at hc
  rcases hc with hc | hc | hc
  · fin_cases hc <;> decide
  · exact digit_ne_bracketL (toDecimal_digits k c hc)
  · simp only [List.mem_singleton] at hc; subst hc; decide

theorem markerTail_free (n : Nat) : ∀ c ∈ toDecimal n ++ [']'], c ≠ '[' := by
  intro c hc
  rcases List.mem_append.mp hc with hc | hc
  · exact digit_ne_bracketL (toDecimal_digits n c hc)
  · simp only [List.mem_singleton] at hc; subst hc; decide

theorem markerTail_no_lt (n : Nat) : ∀ c ∈ toDecimal n ++ [']'], c ≠ '<' := by
  intro c hc
  rcases List.mem_append.mp hc with hc | hc
  · exact digit_ne_lt (toDecimal_digits n c hc)
  · simp only [List.mem_singleton] at hc; subst hc; decide

/-- Two digit blocks followed by a closing bracket and arbitrary text agree
whenever one is a prefix of the other. -/
theorem digits_prefix_eq :
    ∀ dn dk : List Char, (∀ c ∈ dn, c.isDigit = true) → (∀ c ∈ dk, c.isDigit = true) →
      ∀ X : List Char, (dn ++ [']']).isPrefixOf (dk ++ ']' :: X) = true → dn = dk := by
  intro dn
  induction dn with
  | nil =>
    intro dk _ hdk X hpre
    cases dk with
    | nil => rfl
    | cons b bs =>
      rw [List.nil_append, List.cons_append, isPrefixOf_cons_cons, Bool.and_eq_true] at hpre
      exact absurd (eq_of_beq hpre.1).symm (digit_ne_bracketR (hdk b (List.mem_cons_self b bs)))
  | cons a dn ih =>
    intro dk hdn hdk X hpre
    cases dk with
    | nil =>
      rw [List.cons_append, List.nil_append, isPrefixOf_cons_cons, Bool.and_eq_true] at hpre
      exact absurd (eq_of_beq hpre.1) (digit_ne_bracketR (hdn a (List.mem_cons_self a dn)))
    | cons b bs =>
      rw [List.cons_append, List.cons_append, isPrefixOf_cons_cons, Bool.and_eq_true] at hpre
      have htail := ih bs (fun c hc => hdn c (List.mem_cons_of_mem a hc))
        (fun c hc => hdk c (List.mem_cons_of_mem b hc)) X hpre.2
      rw [eq_of_beq hpre.1, htail]

/-- Distinct numeric markers never overlap: `[n]` is not a prefix of
`[k] ++ X` when `n ≠ k`. -/
theorem marker_not_prefix {n k : Nat} (hnk : n ≠ k) (X : List Char) :
    ¬(markerTok n).isPrefixOf (markerTok k ++ X) = true := by
  intro hpre
  simp only [markerTok, List.cons_append, isPrefixOf_cons_cons, Bool.and_eq_true] at hpre
  obtain ⟨-, h1⟩ := hpre
  rw [List.append_assoc, List.singleton_append] at h1
  exact hnk (toDecimal_injective
    (digits_prefix_eq (toDecimal n) (toDecimal k)
      (toDecimal_digits n) (toDecimal_digits k) X h1))

theorem markerTok_ne_nil (n : Nat) : markerTok n ≠ [] := by simp [markerTok]

theorem countOcc_marker_append_free (n : Nat) (l Y : List Char) (h : ∀ c ∈ l, c ≠ '[') :
    countOcc (markerTok n) (l ++ Y) = countOcc (markerTok n) Y :=
  countOcc_append_free (toDecimal n ++ [']']) l Y h

theorem replaceAll_marker_append_free (n : Nat) (r : List Char)
    (l Y : List Char) (h : ∀ c ∈ l, c ≠ '[') :
    replaceAll (markerTok n) r (l ++ Y) = l ++ replaceAll (markerTok n) r Y :=
  replaceAll_append_free (toDecimal n ++ [']']) r l Y h

theorem countOcc_marker_not_pre {n : Nat} {c : Char} {cs : List Char}
    (h : ¬(markerTok n).isPrefixOf (c :: cs) = true) :
    countOcc (markerTok n) (c :: cs) = countOcc (markerTok n) cs :=
  countOcc_neg fun hh => h hh.2

theorem countOcc_marker_pre {n : Nat} {c : Char} {cs : List Char}
    (h : (markerTok n).isPrefixOf (c :: cs) = true) :
    countOcc (markerTok n) (c :: cs)
      = 1 + countOcc (markerTok n) ((c :: cs).drop (markerTok n).length) :=
  countOcc_pos (markerTok_ne_nil n) h

theorem countOcc_marker_self_append (n : Nat) (x : List Char) :
    countOcc (markerTok n) (markerTok n ++ x) = 1 + countOcc (markerTok n) x := by
  have h := @countOcc_pos (markerTok n) '[' ((toDecimal n ++ [']']) ++ x)
    (markerTok_ne_nil n) (isPrefixOf_append_self (markerTok n) x)
  have hdrop : List.drop (markerTok n).length ('[' :: ((toDecimal n ++ [']']) ++ x)) = x :=
    List.drop_left (markerTok n) x
  rw [hdrop] at h
  exact h

theorem prefix_reflect_citationToken (k : Nat) (cs w : List Char) (hw : w ≠ [])
    (hlt : ∀ c ∈ w, c ≠ '<')
    (h : w.isPrefixOf (replaceAll (markerTok k) (citationToken k) cs) = true) :
    w.isPrefixOf cs = true :=
  prefix_reflect (markerTok k) ("CITATION_".data ++ toDecimal k ++ ['>']) cs w hw hlt h

/-- Replacing one marker `[k]` by its placeholder neither creates nor destroys
occurrences of a different marker `[n]`. -/
theorem countOcc_marker_replace {n k : Nat} (hnk : n ≠ k) (s : List Char) :
    countOcc (markerTok n) (replaceAll (markerTok k) (citationToken k) s)
      = countOcc (markerTok n) s := by
  suffices h : ∀ N : Nat, ∀ s : List Char, s.length ≤ N →
      countOcc (markerTok n) (replaceAll (markerTok k) (citationToken k) s)
        = countOcc (markerTok n) s from h s.length s le_rfl
  intro N
  induction N with
  | zero =>
    intro s hs
    rw [List.length_eq_zero.mp (Nat.le_zero.mp hs), replaceAll_nil]
  | succ N ih =>
    intro s hs
    cases s with
    | nil => rw [replaceAll_nil]
    | cons c cs =>
      by_cases hmatch : (markerTok k).isPrefixOf (c :: cs) = true
      · obtain ⟨s', hs'⟩ : ∃ s', markerTok k ++ s' = c :: cs :=
          List.isPrefixOf_iff_prefix.mp hmatch
        have hlen : s'.length ≤ N := by
          have hl := congrArg List.length hs'
          simp only [List.length_append, List.length_cons] at hl
          have hp1 : 1 ≤ (markerTok k).length := by simp [markerTok]
          simp only [List.length_cons] at hs
          omega
        have hdrop : (c :: cs).drop (markerTok k).length = s' := by
          rw [← hs']; exact List.drop_left _ _
        have hnotpre : ¬(markerTok n).isPrefixOf (c :: cs) = true := by
          intro hpre
          rw [← hs'] at hpre
          exact marker_not_prefix hnk s' hpre
        have hcs : cs = (toDecimal k ++ [']']) ++ s' := by
          have hh := hs'
          simp only [markerTok, List.cons_append, List.cons.injEq] at hh
          exact hh.2.symm
        rw [replaceAll_pos (citationToken k) (markerTok_ne_nil k) hmatch, hdrop,
          countOcc_marker_append_free n (citationToken k)
            (replaceAll (markerTok k) (citationToken k) s') (citationToken_free k),
          ih s' hlen, countOcc_marker_not_pre hnotpre, hcs,
          countOcc_marker_append_free n (toDecimal k ++ [']']) s' (markerTail_free k)]
      · have hne : ¬(markerTok k ≠ [] ∧ (markerTok k).isPrefixOf (c :: cs)) := by
          rintro ⟨-, hpre⟩; exact hmatch hpre
        rw [replaceAll_neg (citationToken k) hne]
        by_cases htpre : (markerTok n).isPrefixOf (c :: cs) = true
        · obtain ⟨u, hu⟩ : ∃ u, markerTok n ++ u = c :: cs :=
            List.isPrefixOf_iff_prefix.mp htpre
          have hulen : u.length ≤ N := by
            have hl := congrArg List.length hu
            simp only [List.length_append, List.length_cons] at hl
            have hp1 : 1 ≤ (markerTok n).length := by simp [markerTok]
            simp only [List.length_cons] at hs
            omega
          have hc : c = '[' ∧ cs = (toDecimal n ++ [']']) ++ u := by
            have hh := hu
            simp only [markerTok, List.cons_append, List.cons.injEq] at hh
            exact ⟨hh.1.symm, hh.2.symm⟩
          have hform : c :: replaceAll (markerTok k) (citationToken k) cs
              = markerTok n ++ replaceAll (markerTok k) (citationToken k) u := by
            rw [hc.2, replaceAll_marker_append_free k (citationToken k)
              (toDecimal n ++ [']']) u (markerTail_free n), hc.1]
            simp [markerTok]
          have hdropu : (c :: cs).drop (markerTok n).length = u := by
            rw [← hu]; exact List.drop_left _ _
          rw [hform, countOcc_marker_self_append n
              (replaceAll (markerTok k) (citationToken k) u),
            ih u hulen, countOcc_marker_pre htpre, hdropu]
        · have hlhs : ¬(markerTok n).isPrefixOf
              (c :: replaceAll (markerTok k) (citationToken k) cs) = true := by
            intro hpre
            simp only [markerTok, isPrefixOf_cons_cons, Bool.and_eq_true] at hpre
            obtain ⟨h0, h1⟩ := hpre
            have h2 : (toDecimal n ++ [']']).isPrefixOf cs = true :=
              prefix_reflect_citationToken k cs (toDecimal n ++ [']'])
                (by simp) (markerTail_no_lt n) h1
            refine htpre ?_
            simp only [markerTok, isPrefixOf_cons_cons, Bool.and_eq_true]
            exact ⟨by rw [← eq_of_beq h0]; exact beq_self_eq_true '[', h2⟩
          rw [countOcc_marker_not_pre hlhs, countOcc_marker_not_pre htpre]
          exact ih cs (by simpa using Nat.le_of_succ_le_succ hs)

theorem countOcc_processCitationsL (content : List Char) (cs : List Citation) {n : Nat}
    (hn : ∀ i ∈ List.range cs.length, n ≠ i + 1) :
    countOcc (markerTok n) (processCitationsL content cs)
      = countOcc (markerTok n) content := by
  unfold processCitationsL
  generalize List.range cs.length = L at hn ⊢
  induction L generalizing content with
  | nil => rfl
  | cons i L ih =>
    simp only [List.foldl_cons]
    rw [ih (replaceAll (markerTok (i + 1)) (citationToken (i + 1)) content)
        fun j hj => hn j (List.mem_cons_of_mem i hj),
      countOcc_marker_replace (hn i (List.mem_cons_self i L)) content]

theorem takeWhile_of_all {p : Char → Bool} :
    ∀ l : List Char, (∀ c ∈ l, p c = true) → l.takeWhile p = l := by
  intro l h
  induction l with
  | nil => rfl
  | cons a l ih =>
    rw [List.takeWhile_cons, h a (List.mem_cons_self a l)]
    rw [ih fun c hc => h c (List.mem_cons_of_mem a hc)]
    simp

theorem parseDecimalPrefix_toDecimal (n : Nat) :
    parseDecimalPrefix (String.mk (toDecimal n)) = some n := by
  unfold parseDecimalPrefix
  have hall : (String.mk (toDecimal n)).data.takeWhile Char.isDigit = toDecimal n :=
    takeWhile_of_all (toDecimal n) (toDecimal_digits n)
  rw [hall]
  simp [toDecimal_ne_nil n, digitsVal_toDecimal n]

/-- The concrete stale-response trace for claim C1: session "A" selected
with an empty transcript; a query is sent; the selection switches to "B";
B's history loads; then A's `generate` response arrives. -/
def c1Trace : ChatState :=
  generateOk
    (loadHistoryArrived
      (loadHistoryStart
        (selectChat (handleSendStart ⟨some "A", [], false, false⟩ "q" 100).1 (some "B")))
      "B" (Except.ok [⟨"user", "hello from B", none⟩]))
    ⟨"late answer for A", none⟩ 200

/-- C1: evaluating the code at the failing interleaving — after selecting
session A, sending a query, switching to session B and loading B's history,
the late `generate` response is appended to B's now-foreground transcript
instead of being discarded: `handleSend`'s response continuation never
compares the request's originating session with the current selection. -/
theorem c1_stale_response_appended :
    c1Trace.selected = some "B"
    ∧ c1Trace.messages
        = [ ⟨"B-0", Role.user, "hello from B", none, 0⟩
          , ⟨"201", Role.ai, "late answer for A", none, 200⟩ ]
    ∧ (⟨"201", Role.ai, "late answer for A", none, 200⟩ : UMessage) ∈ c1Trace.messages := by
  decide

/-- C2 counterexample: with citation table `[{key "2"}]` (display index 2)
and text "A [1].", the renderer produces an anchor for the marker `[1]` and
clicking it invokes `onViewSource` with the citation whose display index is
2, not 1 — binding is by array position, not by display-index value. -/
theorem c2_counterexample :
    anchorsOf (renderPipelineParts "A [1]." (some [⟨"2","t","s","u"⟩])) = [['1']]
    ∧ handleCitationClick (some [⟨"2","t","s","u"⟩]) (some "1") = some ⟨"2","t","s","u"⟩
    ∧ displayIndexOf ⟨"2","t","s","u"⟩ = some 2 := by
  decide

/-- C2 amended: a marker `[n]` is bound to the citation at array position
`n-1` (1-based position), and clicking the anchor numbered `n` invokes
`onViewSource` with exactly `citations[n-1]`.  When display indices are
`1..N` in array order — as in the scenario "A [1] and B [2]." with `c1`,
`c2` — this coincides with display-index binding: two distinct anchors
bound to `c1` and `c2` respectively, in left-to-right order. -/
theorem c2_positional_binding :
    (∀ (cs : List Citation) (n : Nat), 1 ≤ n →
        handleCitationClick (some cs) (some (decimalStr n)) = cs[n - 1]?)
    ∧ anchorsOf (renderPipelineParts "A [1] and B [2]."
        (some [⟨"1","A text","srcA","urlA"⟩, ⟨"2","B text","srcB","urlB"⟩]))
        = [['1'], ['2']]
    ∧ handleCitationClick (some [⟨"1","A text","srcA","urlA"⟩, ⟨"2","B text","srcB","urlB"⟩])
        (some "1") = some ⟨"1","A text","srcA","urlA"⟩
    ∧ handleCitationClick (some [⟨"1","A text","srcA","urlA"⟩, ⟨"2","B text","srcB","urlB"⟩])
        (some "2") = some ⟨"2","B text","srcB","urlB"⟩
    ∧ (⟨"1","A text","srcA","urlA"⟩ : Citation) ≠ ⟨"2","B text","srcB","urlB"⟩ := by
  refine ⟨?_, by decide, by decide, by decide, by decide⟩
  intro cs n hn
  simp only [handleCitationClick, decimalStr, Option.getD_some,
    parseDecimalPrefix_toDecimal, hn, if_true]

theorem c2_witness :
    handleCitationClick
        (some [⟨"1","A text","srcA","urlA"⟩, ⟨"2","B text","srcB","urlB"⟩])
        (some (decimalStr 1))
      = [(⟨"1","A text","srcA","urlA"⟩ : Citation), ⟨"2","B text","srcB","urlB"⟩][1 - 1]? :=
  c2_positional_binding.1 [⟨"1","A text","srcA","urlA"⟩, ⟨"2","B text","srcB","urlB"⟩] 1
    (by decide)

/-- C3: a send whose `generate` call rejects leaves the previously appended
optimistic user message in place unchanged, appends exactly one AI message
carrying the fixed apology string, and grows the transcript by exactly 2
over the turn; nothing is removed, and the handlers are total functions, so
the failure never crashes the transcript view. -/
theorem c3_error_turn (st : ChatState) (q : String) (now later : Nat) (sid : String)
    (hsel : st.selected = some sid) (hq : ¬jsTrim q = "") :
    (generateErr (handleSendStart st q now).1 later).messages
      = st.messages
        ++ [ ⟨decimalStr now, Role.user, q, none, now⟩
           , ⟨decimalStr (later + 1), Role.ai, apologyText, none, later⟩ ]
    ∧ (generateErr (handleSendStart st q now).1 later).messages.length
        = st.messages.length + 2 := by
  have h1 : (handleSendStart st q now).1
      = { st with
            messages := st.messages ++ [⟨decimalStr now, Role.user, q, none, now⟩]
          , thinking := true } := by
    simp [handleSendStart, hsel, hq]
  constructor
  · rw [h1]; simp [generateErr]
  · rw [h1]; simp [generateErr]

theorem c3_witness :
    (generateErr (handleSendStart ⟨some "A", [], false, false⟩ "hi" 5).1 7).messages
      = ([] : List UMessage)
        ++ [ ⟨decimalStr 5, Role.user, "hi", none, 5⟩
           , ⟨decimalStr (7 + 1), Role.ai, apologyText, none, 7⟩ ]
    ∧ (generateErr (handleSendStart ⟨some "A", [], false, false⟩ "hi" 5).1 7).messages.length
        = ([] : List UMessage).length + 2 :=
  c3_error_turn ⟨some "A", [], false, false⟩ "hi" 5 7 "A" rfl (by decide)

/-- C4 counterexample: text "[1]" with citation table `[{key "2"}]` — the
marker `[1]` matches no citation's display index, yet `processCitations`
replaces it with a placeholder that becomes an anchor, instead of leaving
the literal text "[1]". -/
theorem c4_counterexample :
    processCitations "[1]" (some [⟨"2","t","s","u"⟩]) = "<CITATION_1>"
    ∧ processCitations "[1]" (some [⟨"2","t","s","u"⟩]) ≠ "[1]"
    ∧ displayIndexOf ⟨"2","t","s","u"⟩ = some 2
    ∧ anchorsOf (renderPipelineParts "[1]" (some [⟨"2","t","s","u"⟩])) = [['1']] := by
  decide

/-- C4 amended: the citation-linking step is a total function on every text
and citation table (including empty and undefined tables), so it never
throws; and every bracketed marker `[n]` with `n = 0` or `n` greater than
the number of citations — positionally out of range, rather than "without a
matching display index" — is left in the output as the literal text `[n]`:
its occurrence count is preserved exactly. -/
theorem c4_unmatched_markers_literal (content : String) (tbl : Option (List Citation))
    (n : Nat) (hn : n = 0 ∨ (tbl.getD []).length < n) :
    countOcc (markerTok n) (processCitations content tbl).data
      = countOcc (markerTok n) content.data := by
  match tbl with
  | none => rfl
  | some cs =>
    by_cases hlen : cs.length = 0
    · simp [processCitations, hlen]
    · simp only [processCitations, hlen, ite_false]
      exact countOcc_processCitationsL content.data cs
        (by
          intro i hi
          simp only [List.mem_range] at hi
          simp only [Option.getD_some] at hn
          omega)

theorem c4_witness :
    countOcc (markerTok 5)
        (processCitations "see [5] and [1]" (some [⟨"1","t","s","u"⟩])).data
      = countOcc (markerTok 5) ("see [5] and [1]" : String).data :=
  c4_unmatched_markers_literal "see [5] and [1]" (some [⟨"1","t","s","u"⟩]) 5 (by decide)

/-- C5 counterexample: in the mock App's derived view, chat "chat-5" is
favourited and belongs to no project, yet it appears neither in any project
bucket nor in the unfiled ("All Chats") bucket — favouriting removed it from
the unfiled bucket, so membership in the project/unfiled dimension is not
determined by project assignment alone. -/
theorem c5_counterexample :
    ∃ c ∈ mAllChats0, c.id = "chat-5" ∧ c.isFavourite = true
      ∧ c ∉ unfiledM mAllChats0
      ∧ (∀ p ∈ mProjects0, c ∉ p.chats)
      ∧ c ∈ favouritesM mProjects0 mAllChats0 := by
  decide

/-- C5 amended: for every flat state of the mock App, the derived view
satisfies — a chat is in `favouriteChats` iff its `isFavourite` flag is set
(and it occurs in a project's list or the flat list); a project's bucket is
its full chat list regardless of favourite status; and the unfiled ("All
Chats") bucket contains exactly the non-favourited flat chats, so
favouriting an unfiled chat removes it from the unfiled bucket. -/
theorem c5_bucket_membership (ps : List MProject) (ac : List MChat) (c : MChat) :
    (c ∈ favouritesM ps ac
      ↔ (c.isFavourite = true ∧ (c ∈ ac ∨ ∃ p ∈ ps, c ∈ p.chats)))
    ∧ (c ∈ unfiledM ac ↔ (c ∈ ac ∧ c.isFavourite = false)) := by
  constructor
  · simp only [favouritesM, List.mem_append, List.mem_filter, List.mem_flatMap]
    constructor
    · rintro (⟨p, hp, hc, hf⟩ | ⟨hc, hf⟩)
      · exact ⟨hf, Or.inr ⟨p, hp, hc⟩⟩
      · exact ⟨hf, Or.inl hc⟩
    · rintro ⟨hf, hc | ⟨p, hp, hc⟩⟩
      · exact Or.inr ⟨hc, hf⟩
      · exact Or.inl ⟨p, hp, hc, hf⟩
  · simp [unfiledM, List.mem_filter]

/-- C6 counterexample: two spans with the same `start` offset — the
sort-descending-then-insert highlighter applies whichever was supplied
first, and the two supply orders give different output. -/
theorem c6_counterexample :
    highlight "ab" [⟨0, 1⟩, ⟨0, 2⟩] ≠ highlight "ab" [⟨0, 2⟩, ⟨0, 1⟩] := by
  decide

theorem perm_eq_of_pairwise_desc :
    ∀ l₁ l₂ : List Span, l₁.Pairwise (fun a b => b.start < a.start) →
      l₂.Pairwise (fun a b => b.start < a.start) → l₁.Perm l₂ → l₁ = l₂ := by
  intro l₁
  induction l₁ with
  | nil =>
    intro l₂ _ _ hp
    exact (List.Perm.eq_nil hp.symm).symm
  | cons a t ih =>
    intro l₂ h1 h2 hp
    cases l₂ with
    | nil => exact absurd (List.Perm.eq_nil hp) (by simp)
    | cons b t₂ =>
      by_cases hab : a = b
      · subst hab
        rw [ih t₂ (List.Pairwise.of_cons h1) (List.Pairwise.of_cons h2) hp.cons_inv]
      · exfalso
        have ha2 : a ∈ b :: t₂ := hp.mem_iff.mp (List.mem_cons_self a t)
        have hb1 : b ∈ a :: t := hp.mem_iff.mpr (List.mem_cons_self b t₂)
        rcases List.mem_cons.mp ha2 with h | h
        · exact hab h
        · have hlt1 : a.start < b.start := (List.pairwise_cons.mp h2).1 a h
          rcases List.mem_cons.mp hb1 with hh | hh
          · exact hab hh.symm
          · have hlt2 : b.start < a.start := (List.pairwise_cons.mp h1).1 b hh
            omega

/-- C6 amended: the modelled highlighter's output is independent of the
order in which the spans are supplied provided all span `start` offsets are
pairwise distinct; with duplicate `start` offsets the stable descending
sort keeps the supply order, and the outputs can differ (see the
counterexample; the spec itself leaves the equal-offset tie-break
unspecified). -/
theorem c6_order_independent (text : String) (s1 s2 : List Span)
    (hperm : s1.Perm s2) (hnd : (s1.map Span.start).Nodup) :
    highlight text s1 = highlight text s2 := by
  haveI : IsTotal Span fun a b => b.start ≤ a.start :=
    ⟨fun a b => (Nat.le_total a.start b.start).symm⟩
  haveI : IsTrans Span fun a b => b.start ≤ a.start :=
    ⟨fun a b c hab hbc => le_trans hbc hab⟩
  have hnd2 : (s2.map Span.start).Nodup := ((hperm.map Span.start).nodup_iff).mp hnd
  have hstrict : ∀ l : List Span, l.Sorted (fun a b => b.start ≤ a.start) →
      (l.map Span.start).Nodup → l.Pairwise fun a b => b.start < a.start := by
    intro l hs hn
    have hne : l.Pairwise fun a b => a.start ≠ b.start := List.pairwise_map.mp hn
    exact (hs.and hne).imp fun h => lt_of_le_of_ne h.1 h.2.symm
  have hs1 := List.sorted_insertionSort (fun a b => b.start ≤ a.start) s1
  have hs2 := List.sorted_insertionSort (fun a b => b.start ≤ a.start) s2
  have hp1 := List.perm_insertionSort (fun a b => b.start ≤ a.start) s1
  have hp2 := List.perm_insertionSort (fun a b => b.start ≤ a.start) s2
  have heq := perm_eq_of_pairwise_desc
    (s1.insertionSort fun a b => b.start ≤ a.start)
    (s2.insertionSort fun a b => b.start ≤ a.start)
    (hstrict _ hs1 (((hp1.map Span.start).nodup_iff).mpr hnd))
    (hstrict _ hs2 (((hp2.map Span.start).nodup_iff).mpr hnd2))
    (hp1.trans (hperm.trans hp2.symm))
  unfold highlight
  rw [heq]

theorem c6_witness :
    highlight "abcd" [⟨0, 1⟩, ⟨2, 3⟩] = highlight "abcd" [⟨2, 3⟩, ⟨0, 1⟩] :=
  c6_order_independent "abcd" [⟨0, 1⟩, ⟨2, 3⟩] [⟨2, 3⟩, ⟨0, 1⟩] (by decide) (by decide)

/-- C7: selecting a session whose history fetch then fails is recovered
locally — the rejection is caught, `loading` is cleared, the previous
transcript (empty or stale, a degraded view) is left in place and the
selection stands; the update functions are total, so the failure never
propagates as a crash of the transcript view. -/
theorem c7_history_failure_recovered (st : ChatState) (sid e : String) :
    loadHistoryArrived (loadHistoryStart (selectChat st (some sid))) sid (Except.error e)
      = { st with selected := some sid, loading := false } := by
  simp [selectChat, loadHistoryStart, loadHistoryArrived]

/-- C8 counterexample: the legacy mock App's `toggleFavourite` performs a
local speculative edit of bucket membership — toggling "chat-4" removes it
from the unfiled ("All Chats") bucket entirely client-side, with no backend
call and no reload involved (the handler takes no backend response at
all). -/
theorem c8_counterexample :
    (∃ c ∈ unfiledM mAllChats0, c.id = "chat-4")
    ∧ ¬∃ c ∈ unfiledM (toggleFavouriteM mProjects0 mAllChats0 "chat-4").2,
        c.id = "chat-4" := by
  decide

/-- C8 amended: in the API-backed `App.tsx` every mutation handler
(toggle-favorite, rename, move, delete chat, new chat, new project, delete
project) forwards the intent to the backend and then recomputes the view
from a fresh full fetch: the organized view after the handler is either
untouched (round trip failed or cancelled) or exactly the reload result —
never a locally edited variant.  The legacy mock App's `toggleFavourite`
(src/unnamed/part_003) instead edits buckets client-side, as the
counterexample shows. -/
theorem c8_reload_only (st : AppState) (cid newName : String)
    (pid nm : Option String) (conf : Bool) (rb : Except String Bool)
    (ru1 ru2 ru3 ru4 : Except String Unit) (rs : Except String String)
    (listR : Except String OrganizedChats) :
    ((handleToggleFavoriteApp st cid rb listR).organizedChats = st.organizedChats
      ∨ (handleToggleFavoriteApp st cid rb listR).organizedChats
          = reloadedOrganized st listR)
    ∧ ((handleRenameChatApp st cid newName ru1 listR).organizedChats = st.organizedChats
      ∨ (handleRenameChatApp st cid newName ru1 listR).organizedChats
          = reloadedOrganized st listR)
    ∧ ((handleMoveToProjectApp st cid pid ru2 listR).organizedChats = st.organizedChats
      ∨ (handleMoveToProjectApp st cid pid ru2 listR).organizedChats
          = reloadedOrganized st listR)
    ∧ ((handleDeleteChatApp st cid ru3 listR).organizedChats = st.organizedChats
      ∨ (handleDeleteChatApp st cid ru3 listR).organizedChats
          = reloadedOrganized st listR)
    ∧ ((handleNewChatApp st pid rs listR).organizedChats = st.organizedChats
      ∨ (handleNewChatApp st pid rs listR).organizedChats = reloadedOrganized st listR)
    ∧ ((handleNewProjectApp st nm ru4 listR).organizedChats = st.organizedChats
      ∨ (handleNewProjectApp st nm ru4 listR).organizedChats
          = reloadedOrganized st listR)
    ∧ ((handleDeleteProjectApp st conf ru4 listR).organizedChats = st.organizedChats
      ∨ (handleDeleteProjectApp st conf ru4 listR).organizedChats
          = reloadedOrganized st listR) := by
  refine ⟨?_, ?_, ?_, ?_, ?_, ?_, ?_⟩
  · cases rb with
    | ok b => exact Or.inr rfl
    | error e => exact Or.inl rfl
  · cases ru1 with
    | ok u => exact Or.inr rfl
    | error e => exact Or.inl rfl
  · cases ru2 with
    | ok u => exact Or.inr rfl
    | error e => exact Or.inl rfl
  · cases ru3 with
    | error e => exact Or.inl rfl
    | ok u =>
      refine Or.inr ?_
      cases listR with
      | ok chats =>
        by_cases h : st.selectedChat = some cid <;>
          simp [handleDeleteChatApp, loadChats, reloadedOrganized, h]
      | error e =>
        by_cases h : st.selectedChat = some cid <;>
          simp [handleDeleteChatApp, loadChats, reloadedOrganized, h]
  · cases rs with
    | error e => exact Or.inl rfl
    | ok sid =>
      refine Or.inr ?_
      cases listR with
      | ok chats => simp [handleNewChatApp, loadChats, reloadedOrganized]
      | error e => simp [handleNewChatApp, loadChats, reloadedOrganized]
  · cases nm with
    | none => exact Or.inl rfl
    | some x =>
      cases ru4 with
      | ok u => exact Or.inr rfl
      | error e => exact Or.inl rfl
  · cases conf with
    | false => exact Or.inl rfl
    | true =>
      cases ru4 with
      | ok u => exact Or.inr rfl
      | error e => exact Or.inl rfl

/-- C9: a completed chat deletion clears the selection exactly when the
deleted chat was the currently selected (open) session, and leaves the
selection unchanged otherwise; the subsequent reload never touches the
selection. -/
theorem c9_delete_clears_selection (st : AppState) (cid : String)
    (listR : Except String OrganizedChats) :
    (st.selectedChat = some cid →
      (handleDeleteChatApp st cid (Except.ok ()) listR).selectedChat = none)
    ∧ (st.selectedChat ≠ some cid →
      (handleDeleteChatApp st cid (Except.ok ()) listR).selectedChat = st.selectedChat) := by
  constructor
  · intro h
    cases listR with
    | ok chats => simp [handleDeleteChatApp, loadChats, h]
    | error e => simp [handleDeleteChatApp, loadChats, h]
  · intro h
    cases listR with
    | ok chats => simp [handleDeleteChatApp, loadChats, h]
    | error e => simp [handleDeleteChatApp, loadChats, h]

theorem c9_witness :
    (handleDeleteChatApp ⟨some "x", ⟨[], [], []⟩, false⟩ "x" (Except.ok ())
        (Except.error "boom")).selectedChat = none :=
  (c9_delete_clears_selection ⟨some "x", ⟨[], [], []⟩, false⟩ "x" (Except.error "boom")).1 rfl

/-- C10: the citation click handler never throws (it is a total function)
and performs no action unless the parsed citation number `n` satisfies
`1 ≤ n` and `citations[n-1]` exists: with no citation table, an unparsable
attribute, `n = 0`, or `n` out of range it returns no action, and whenever
it does invoke `onViewSource` the argument is exactly the citation at
position `n-1`. -/
theorem c10_click_safety :
    (∀ attr, handleCitationClick none attr = none)
    ∧ (∀ (cs : List Citation) (attr : Option String),
        parseDecimalPrefix (attr.getD "0") = none →
        handleCitationClick (some cs) attr = none)
    ∧ (∀ (cs : List Citation) (attr : Option String) (n : Nat),
        parseDecimalPrefix (attr.getD "0") = some n → (n = 0 ∨ cs.length < n) →
        handleCitationClick (some cs) attr = none)
    ∧ (∀ (cs : List Citation) (attr : Option String) (c : Citation),
        handleCitationClick (some cs) attr = some c →
        ∃ n, parseDecimalPrefix (attr.getD "0") = some n ∧ 1 ≤ n
          ∧ cs[n - 1]? = some c) := by
  refine ⟨?_, ?_, ?_, ?_⟩
  · intro attr
    unfold handleCitationClick
    cases parseDecimalPrefix (attr.getD "0") <;> rfl
  · intro cs attr h
    simp only [handleCitationClick, h]
  · intro cs attr n h hn
    simp only [handleCitationClick, h]
    rcases hn with hn | hn
    · subst hn; simp
    · by_cases h1 : 1 ≤ n
      · simp only [h1, if_true]
        exact List.getElem?_eq_none (by omega)
      · simp [h1]
  · intro cs attr c h
    simp only [handleCitationClick] at h
    cases hp : parseDecimalPrefix (attr.getD "0") with
    | none =>
      rw [hp] at h
      have h2 : (none : Option Citation) = some c := h
      exact absurd h2 (by simp)
    | some n =>
      rw [hp] at h
      have h2 : (if 1 ≤ n then cs[n - 1]? else none) = some c := h
      by_cases h1 : 1 ≤ n
      · rw [if_pos h1] at h2
        exact ⟨n, rfl, h1, h2⟩
      · rw [if_neg h1] at h2
        exact absurd h2 (by simp)

theorem c10_witness :
    handleCitationClick (some [⟨"1","t","s","u"⟩]) (some "5") = none :=
  c10_click_safety.2.2.1 [⟨"1","t","s","u"⟩] (some "5") 5 (by decide) (by decide)

end OPOChat
